import Mathlib

/-!
Verification development for the episode rollout orchestration layer of the
clemcore playpen: the tree-structured branching engine
(`playpen/branching/tree.py`, `playpen/branching/master.py`,
`playpen/branching/player.py`) and the dynamic batching scheduler
(`clemcore.clemgame.runners.batchwise`, modelled from its specification and
the behaviour fixed by `tests/test_dynamic_batch_loader.py`).

Python objects are modelled as pure values.  Object identity (Python `is`
and default `==`) is rendered by explicit numeric ids: every `GameMaster`
handle carries a `Nat` id (fresh ids are minted on `deepcopy`), and every
tree node carries a `Nat` id `nid` (fresh ids are minted on node creation),
with the invariant that distinct live instances have distinct ids.
Mutation is rendered as explicit state passing; a raised `AssertionError`
is rendered as `Option.none`.
-/

namespace Playpen

/-- Payload of a `ResponseTreeNode` (`tree.py`): the originating player, the
context it observed, the sampled response, the completion flag, and the info
mapping produced by stepping.  Dicts whose contents the claims touch only via
the `"done"` entry are modelled as insertion-ordered association lists. -/
structure RData where
  player : Nat
  context : Nat
  response : String
  done : Bool
  info : List (String × Bool)
deriving Repr, DecidableEq

mutual
/-- Model of `GameTreeNode` (`tree.py`): a wrapped game-master id, a tag set
(Python `set` of strings, modelled as a duplicate-free list), an optional
`ResponseTreeNode` payload, and the ordered list of child nodes.  The field
`nid` models the node's object identity; the parent back-reference of the
source is implicit in the tree structure. -/
inductive GTNode where
  | mk (nid : Nat) (master : Nat) (tags : List String) (payload : Option RData)
       (branches : GTForest)

/-- Ordered list of children of a `GameTreeNode` (the Python list
`_branches`). -/
inductive GTForest where
  | nil
  | cons (head : GTNode) (tail : GTForest)
end

namespace GTNode

def nid : GTNode → Nat
  | .mk n _ _ _ _ => n

def master : GTNode → Nat
  | .mk _ m _ _ _ => m

def tags : GTNode → List String
  | .mk _ _ tg _ _ => tg

def payload : GTNode → Option RData
  | .mk _ _ _ pl _ => pl

def branches : GTNode → GTForest
  | .mk _ _ _ _ brs => brs

/-- Model of `GameTreeNode.has_tag`. -/
def hasTag (t : GTNode) (tag : String) : Bool :=
  t.tags.contains tag

/-- Model of `GameTreeNode.wraps`: object identity of the wrapped master is
rendered as equality of master ids. -/
def wraps (t : GTNode) (target : Nat) : Bool :=
  t.master == target

end GTNode

namespace GTForest

def toList : GTForest → List GTNode
  | .nil => []
  | .cons h t => h :: toList t

/-- Append a node at the end of a children list (Python `list.append`). -/
def push : GTForest → GTNode → GTForest
  | .nil, c => .cons c .nil
  | .cons h t, c => .cons h (push t c)

/-- Membership test `branch_node in self._branches` of the source: the
default Python `==` on `GameTreeNode` instances is object identity, rendered
as equality of node ids. -/
def hasNid : GTForest → Nat → Bool
  | .nil, _ => false
  | .cons h t, n => h.nid == n || hasNid t n

end GTForest

/-- Model of `GameTreeNode.connect_to`: re-adding an already contained child
(same instance, i.e. same `nid`) is a no-op; otherwise the child is appended
to the children.  Setting the child's parent pointer is implicit in the tree
structure. -/
def connect_to (parent : GTNode) (child : GTNode) : GTNode :=
  match parent with
  | .mk n m tg pl brs =>
      if brs.hasNid child.nid then .mk n m tg pl brs
      else .mk n m tg pl (brs.push child)

mutual
/-- Model of `GameTree.find_node`: depth-first search for the node wrapping
the target master, the node itself checked before its branches; `none` is
the explicit not-found sentinel (Python `None`). -/
def find_node (target : Nat) : GTNode → Option GTNode
  | .mk n m tg pl brs =>
      if m == target then some (.mk n m tg pl brs)
      else findNodeForest target brs

/-- Depth-first search over a children list, earlier children first. -/
def findNodeForest (target : Nat) : GTForest → Option GTNode
  | .nil => none
  | .cons h t =>
      match find_node target h with
      | some r => some r
      | none => findNodeForest target t
end

mutual
/-- Model of `GameTree.find_leaves`: depth-first collection of all nodes
with no children, in visiting order. -/
def find_leaves : GTNode → List GTNode
  | .mk n m tg pl brs =>
      match brs with
      | .nil => [.mk n m tg pl .nil]
      | .cons h t => findLeavesForest (.cons h t)

def findLeavesForest : GTForest → List GTNode
  | .nil => []
  | .cons h t => find_leaves h ++ findLeavesForest t
end

/-- Adding a tag to a Python tag set (`GameTreeNode.tag`), modelled on
duplicate-free lists. -/
def addTag (tag : String) (tg : List String) : List String :=
  if tg.contains tag then tg else tg ++ [tag]

/-- Holds of a node iff some leaf of its subtree (in the sense of the
source's `find_leaves`) wraps a master contained in `ms`.  A node satisfies
this exactly when it lies on the upward path walked by
`label_active_recursive` in `master.py` from some active leaf to the root:
those paths consist precisely of the ancestors-or-selves of active leaves. -/
def onActivePath (ms : List Nat) (t : GTNode) : Bool :=
  (find_leaves t).any (fun l => ms.contains l.master)

mutual
/-- Effect of the tagging phase of `BranchingGameMaster.get_active_tree` on
the original tree, given the current `_active_parent_masters` ids `ms`: the
source walks upward from every active leaf adding the tag `"active"`, which
tags exactly the nodes satisfying `onActivePath ms`.  Structure, masters
and payloads are untouched. -/
def tagActivePhase (ms : List Nat) : GTNode → GTNode
  | .mk n m tg pl brs =>
      .mk n m
        (if onActivePath ms (.mk n m tg pl brs) then addTag "active" tg else tg)
        pl (tagForest ms brs)

def tagForest (ms : List Nat) : GTForest → GTForest
  | .nil => .nil
  | .cons h t => .cons (tagActivePhase ms h) (tagForest ms t)
end

mutual
/-- Node ids of all nodes of the tree carrying the `"active"` tag, in
preorder. -/
def taggedNids : GTNode → List Nat
  | .mk n _ tg _ brs =>
      (if tg.contains "active" then [n] else []) ++ taggedForest brs

def taggedForest : GTForest → List Nat
  | .nil => []
  | .cons h t => taggedNids h ++ taggedForest t
end

mutual
/-- Node ids of all nodes that are ancestors-or-selves of a leaf wrapping a
master in `ms` (equivalently, whose subtree has a `find_leaves` leaf with
master in `ms`), in preorder. -/
def activePathNids (ms : List Nat) : GTNode → List Nat
  | .mk n m tg pl brs =>
      (if onActivePath ms (.mk n m tg pl brs) then [n] else [])
        ++ activePathForest ms brs

def activePathForest (ms : List Nat) : GTForest → List Nat
  | .nil => []
  | .cons h t => activePathNids ms h ++ activePathForest ms t
end

mutual
/-- Finding the first node (in the depth-first order of `find_node`) that
wraps `target` and connecting `child` under it, as
`BranchingCandidate.add_branch_to` does; `none` models the raised
`AssertionError` when no node of the tree wraps `target`. -/
def attachNode (target : Nat) (child : GTNode) : GTNode → Option GTNode
  | .mk n m tg pl brs =>
      if m == target then some (connect_to (.mk n m tg pl brs) child)
      else
        match attachForest target child brs with
        | some brs' => some (.mk n m tg pl brs')
        | none => none

def attachForest (target : Nat) (child : GTNode) : GTForest → Option GTForest
  | .nil => none
  | .cons h t =>
      match attachNode target child h with
      | some h' => some (.cons h' t)
      | none =>
          match attachForest target child t with
          | some t' => some (.cons h t')
          | none => none
end

/-- Model of the dataclass `BranchingStep` (`player.py`): masters, players
and contexts are rendered by their ids. -/
structure BranchingStep where
  parent_master : Nat
  parent_player : Nat
  parent_context : Nat
  branch_master : Nat
  branch_response : String
deriving Repr, DecidableEq

/-- External behaviour consumed by `BranchingPlayer.branching_response`:
`observe` gives the (player, context) pair of a master id, and `respond`
is the player call `player(context)` returning the response text. -/
structure BranchEnv where
  observe : Nat → Nat × Nat
  respond : Nat → Nat → String

/-- Inner loop `for _ in range(current_branching_factor)` of
`branching_response`: each iteration deep-copies the parent master (minting
the fresh id `fresh`), observes the branch's player, calls it on the
parent's context, and packages the five-tuple.  Returns the steps in
creation order together with the next fresh id. -/
def branchLoop (env : BranchEnv) (pm pp pc : Nat) :
    Nat → Nat → List BranchingStep × Nat
  | 0, fresh => ([], fresh)
  | k + 1, fresh =>
      let bm := fresh
      let bp := (env.observe bm).1
      let resp := env.respond bp pc
      let rest := branchLoop env pm pp pc k (fresh + 1)
      (⟨pm, pp, pc, bm, resp⟩ :: rest.1, rest.2)

/-- Model of `BranchingPlayer.branching_response`: for each parent master,
observe its (player, context) pair, compute the effective fork count
(`branching_factor` if the criteria holds, else 1) and produce that many
branching steps; groups are returned in parent order.  The counter `fresh`
mints ids for deep copies. -/
def branching_response (env : BranchEnv) (branching_factor : Nat)
    (branching_criteria : Nat → Bool) :
    List Nat → Nat → List (List BranchingStep) × Nat
  | [], fresh => ([], fresh)
  | pm :: rest, fresh =>
      let pp := (env.observe pm).1
      let pc := (env.observe pm).2
      let k := if branching_criteria pm then branching_factor else 1
      let steps := branchLoop env pm pp pc k fresh
      let restOut :=
        branching_response env branching_factor branching_criteria rest steps.2
      (steps.1 :: restOut.1, restOut.2)

/-- External behaviour consumed by `BranchingGameMaster.step`: `stepFn`
gives the `(done, info)` result of `branch_master.step(branch_response)`,
i.e. of `BranchingStep.apply`. -/
structure StepEnv where
  stepFn : Nat → String → Bool × List (String × Bool)

/-- Model of `BranchingStep.apply`. -/
def BranchingStep.apply (env : StepEnv) (bs : BranchingStep) :
    Bool × List (String × Bool) :=
  env.stepFn bs.branch_master bs.branch_response

/-- Insertion-ordered dict update `info[key] = value`. -/
def setEntry : List (String × Bool) → String → Bool → List (String × Bool)
  | [], k, v => [(k, v)]
  | (k', v') :: rest, k, v =>
      if k' == k then (k, v) :: rest else (k', v') :: setEntry rest k v

/-- Model of `BranchingCandidate` (`master.py`). -/
structure BranchingCandidate where
  response : BranchingStep
  done : Bool
  info : List (String × Bool)
deriving Repr, DecidableEq

/-- Candidate construction inside `BranchingGameMaster.step`: apply the
branching step and store `done` into the info dict. -/
def mkCandidate (env : StepEnv) (bs : BranchingStep) : BranchingCandidate :=
  let r := bs.apply env
  ⟨bs, r.1, setEntry r.2 "done" r.1⟩

/-- State of a `BranchingGameMaster`: the game tree (its root node), the
ids of the active parent masters, the done flag, and the counter minting
node ids for freshly created tree nodes. -/
structure BGMState where
  tree : GTNode
  active_parent_masters : List Nat
  done : Bool
  nextNid : Nat

/-- Model of `BranchingCandidate.add_branch_to`: a fresh `ResponseTreeNode`
wrapping the branched master is connected under the node wrapping the
candidate's parent master; `none` models the `AssertionError` raised when
that parent node is missing. -/
def add_branch_to (c : BranchingCandidate) (nid : Nat) (t : GTNode) :
    Option GTNode :=
  attachNode c.response.parent_master
    (.mk nid c.response.branch_master [] (some ⟨c.response.parent_player,
      c.response.parent_context, c.response.branch_response, c.done, c.info⟩)
      .nil) t

/-- Second loop of `BranchingGameMaster.step`: attach every candidate to the
tree in order and collect the branched masters as the new active parents.
A failed attachment (missing parent node) aborts with `none`. -/
def attachCandidates :
    List BranchingCandidate → GTNode → Nat → List Nat →
      Option (GTNode × Nat × List Nat)
  | [], t, nid, acc => some (t, nid, acc)
  | c :: rest, t, nid, acc =>
      match add_branch_to c nid t with
      | none => none
      | some t' =>
          attachCandidates rest t' (nid + 1) (acc ++ [c.response.branch_master])

/-- Model of `BranchingGameMaster.step`: every branching step of every group
is applied in order, yielding candidates and per-group infos; the done flag
becomes the conjunction over all candidates; the candidates are attached to
the tree and the active parent set is replaced by their branched masters.
Returns the new state together with `(done, all_infos)`; `none` models a
raised `AssertionError`. -/
def BGMState.step (env : StepEnv) (s : BGMState)
    (all_branching_steps : List (List BranchingStep)) :
    Option (BGMState × Bool × List (List (List (String × Bool)))) :=
  let candGroups := all_branching_steps.map (fun g => g.map (mkCandidate env))
  let all_infos := candGroups.map (fun g => g.map (·.info))
  let candidates := candGroups.flatten
  let doneNow := candidates.all (·.done)
  match attachCandidates candidates s.tree s.nextNid [] with
  | none => none
  | some (t', nid', active) =>
      some (⟨t', active, doneNow, nid'⟩, doneNow, all_infos)

/-- Model of `BranchingGameMaster.is_done`. -/
def BGMState.is_done (s : BGMState) : Bool :=
  s.done

/-- Model of `BranchingGameMaster.get_active_tree`.  The tagging phase
mutates the tags of the original tree (see `tagActivePhase`).  The returned
tree is `GameTree(copy(root))` where `copy` is a shallow copy sharing the
branches list: the helper `copy_active_tree_recursive` of the source only
ever assigns the filtered children to local shallow copies that are then
discarded, so it has no observable effect and the returned root carries the
same (unfiltered) children as the tagged original root. -/
def get_active_tree (s : BGMState) : BGMState × GTNode :=
  let root' := tagActivePhase s.active_parent_masters s.tree
  ({ s with tree := root' }, root')

/-- Repeated `get_active_tree` extraction calls on one orchestrator state,
the i-th call made while the active parent set is `mss i` (the set may have
been replaced between calls; the tree structure is unchanged by extraction
itself). -/
def runExtractions (s : BGMState) (mss : List (List Nat)) : BGMState :=
  mss.foldl
    (fun st ms => (get_active_tree { st with active_parent_masters := ms }).1) s

end Playpen

namespace Batchwise

/-!
Modelled from the spec: the module `clemcore.clemgame.runners.batchwise`
(`GameSession`, `SinglePassGameSessionPoller`, `DynamicBatchDataLoader`) is
not under `src/`; only its tests are.  The definitions below follow the
spec's Session / Session Poller / Dynamic Batch Scheduler contracts
(spec sections 4.1 to 4.3) and the episode-handle behaviour fixed by
`MockGameMasterEnv` in `src/tests/test_dynamic_batch_loader.py`: a handle
permits `doneAfter` observations, the observation counter increments on
every observe call, and the call exceeding the allowance terminates the
handle and yields nothing.
-/

/-- Modelled from the spec: one observation produced by a session poll, the
triple of session id, player and context; the mock handle's context is its
observation turn counter. -/
structure Obs where
  sid : Nat
  player : Nat
  turn : Nat
deriving Repr, DecidableEq

/-- Modelled from the spec: a `GameSession` wrapping one episode handle in
the state of the mock handle of the tests: `obsCount` observations made so
far, `doneAfter` observations permitted, and the handle's termination
flag. -/
structure SessionState where
  session_id : Nat
  obsCount : Nat
  doneAfter : Nat
  isDone : Bool
deriving Repr, DecidableEq

/-- Modelled from the spec: `poll()` yields nothing when the wrapped handle
is done; otherwise it makes one observation, which either terminates the
handle (yielding nothing) or yields exactly one `(session_id, player,
context)` triple reflecting the handle's current state. -/
def SessionState.poll (s : SessionState) : Option Obs × SessionState :=
  if s.isDone then (none, s)
  else
    let c := s.obsCount + 1
    if s.doneAfter < c then (none, { s with obsCount := c, isDone := true })
    else (some ⟨s.session_id, s.session_id, c⟩, { s with obsCount := c })

/-- Modelled from the spec: one pass of the `SinglePassGameSessionPoller`
over its sessions, each paired with its exhaustion flag.  Sessions are
visited in input order; an already exhausted session is skipped; a session
whose poll is empty is marked exhausted and contributes nothing; non-empty
polls are appended to the result in order. -/
def pollPass : List (SessionState × Bool) → List Obs × List (SessionState × Bool)
  | [] => ([], [])
  | (s, ex) :: rest =>
      if ex then
        let (obs, rest') := pollPass rest
        (obs, (s, true) :: rest')
      else
        match s.poll with
        | (none, s') =>
            let (obs, rest') := pollPass rest
            (obs, (s', true) :: rest')
        | (some o, s') =>
            let (obs, rest') := pollPass rest
            (o :: obs, (s', false) :: rest')

/-- Helper for chunking: `k` is the remaining capacity of the chunk
accumulated in `acc` (in order). -/
def chunkGo (b : Nat) : List Obs → Nat → List Obs → List (List Obs)
  | [], _, acc => if acc = [] then [] else [acc]
  | x :: xs, 0, acc => acc :: chunkGo b xs (b - 1) [x]
  | x :: xs, k + 1, acc => chunkGo b xs k (acc ++ [x])

/-- Splitting a pass, in order, into consecutive chunks of at most `b`
observations; a trailing chunk may be under-sized. -/
def chunkPass (b : Nat) (pass : List Obs) : List (List Obs) :=
  chunkGo b pass b []

/-- Modelled from the spec: the default collation function
`GameSession.collate_fn`, decomposing a batch into the three parallel
sequences of session ids, players and contexts. -/
def collate_fn (batch : List Obs) : List Nat × List Nat × List Nat :=
  (batch.map (·.sid), batch.map (·.player), batch.map (·.turn))

/-- Modelled from the spec: the `DynamicBatchDataLoader` iteration with
explicit fuel.  Each round requests one pass from the poller; an empty pass
terminates the iteration (flag `true`); a non-empty pass is chunked into
batches of at most `b` observations, each emitted through the collation
function.  Fuel exhaustion before termination returns flag `false`. -/
def loaderRun (b : Nat) :
    Nat → List (SessionState × Bool) →
      List (List Nat × List Nat × List Nat) × Bool
  | 0, _ => ([], false)
  | fuel + 1, st =>
      let (pass, st') := pollPass st
      if pass = [] then ([], true)
      else
        let batches := (chunkPass b pass).map collate_fn
        let (more, fin) := loaderRun b fuel st'
        (batches ++ more, fin)

end Batchwise

namespace Playpen

/-! General helper lemmas. -/

theorem any_comp_map {α β : Type} (f : α → β) (p : β → Bool) :
    ∀ l : List α, (l.map f).any p = l.any (fun a => p (f a))
  | [] => rfl
  | x :: xs => by simp [any_comp_map f p xs]

theorem all_comp_map {α β : Type} (f : α → β) (p : β → Bool) :
    ∀ l : List α, (l.map f).all p = l.all (fun a => p (f a))
  | [] => rfl
  | x :: xs => by simp [all_comp_map f p xs]

theorem flatten_map_map {α β γ : Type} (f : α → β) (g : β → γ) :
    ∀ L : List (List α),
      ((L.map (List.map f)).flatten).map g = L.flatten.map (fun a => g (f a))
  | [] => rfl
  | l :: L => by simp [flatten_map_map f g L, List.map_map, Function.comp]

theorem flatten_map_all {α β : Type} (f : α → β) (p : β → Bool) :
    ∀ L : List (List α),
      ((L.map (List.map f)).flatten).all p = L.flatten.all (fun a => p (f a))
  | [] => rfl
  | l :: L => by simp [flatten_map_all f p L, all_comp_map f p l]

theorem contains_addTag (tag : String) (tg : List String) :
    (addTag tag tg).contains tag = true := by
  unfold addTag
  by_cases h : tag ∈ tg
  · simp [List.elem_iff, h]
  · simp [List.elem_iff, h]

/-! Lemmas about `connect_to` (claim C9). -/

theorem hasNid_push : ∀ (f : GTForest) (c : GTNode), (f.push c).hasNid c.nid = true
  | .nil, c => by simp [GTForest.push, GTForest.hasNid]
  | .cons h t, c => by simp [GTForest.push, GTForest.hasNid, hasNid_push t c]

theorem connect_to_branches_hasNid :
    ∀ (p c : GTNode), (connect_to p c).branches.hasNid c.nid = true
  | .mk n m tg pl brs, c => by
      by_cases h : brs.hasNid c.nid
      · simp [connect_to, h, GTNode.branches]
      · simp [connect_to, h, GTNode.branches, hasNid_push]

/-- C9: connecting the same child node to a parent twice is a no-op: the
second `connect_to` call leaves the parent (in particular its child list)
exactly as after the first call, and the child is still among the parent's
children (the pure rendering of the child's parent back-reference). -/
theorem connect_to_idempotent (p c : GTNode) :
    connect_to (connect_to p c) c = connect_to p c
    ∧ (connect_to (connect_to p c) c).branches.hasNid c.nid = true := by
  have hidem : connect_to (connect_to p c) c = connect_to p c := by
    match p with
    | .mk n m tg pl brs =>
        by_cases h : brs.hasNid c.nid
        · simp [connect_to, h]
        · simp [connect_to, h, hasNid_push]
  refine ⟨hidem, ?_⟩
  rw [hidem]
  exact connect_to_branches_hasNid p c

/-! Lemmas about `attachNode` and `find_node` (claim C6). -/

mutual
theorem attachNode_none_iff (m : Nat) (c : GTNode) :
    ∀ t : GTNode, attachNode m c t = none ↔ find_node m t = none
  | .mk n mm tg pl brs => by
      rw [attachNode, find_node]
      by_cases h : mm == m
      · simp [h]
      · rw [if_neg h, if_neg h]
        cases hff : findNodeForest m brs with
        | some r =>
            have haf : attachForest m c brs ≠ none := fun hx =>
              absurd ((attachForest_none_iff m c brs).mp hx) (by simp [hff])
            cases ha : attachForest m c brs with
            | some brs' => simp
            | none => exact absurd ha haf
        | none =>
            have ha : attachForest m c brs = none :=
              (attachForest_none_iff m c brs).mpr hff
            simp [ha]

theorem attachForest_none_iff (m : Nat) (c : GTNode) :
    ∀ f : GTForest, attachForest m c f = none ↔ findNodeForest m f = none
  | .nil => by simp [attachForest, findNodeForest]
  | .cons hd tl => by
      rw [attachForest, findNodeForest]
      cases hf : find_node m hd with
      | some r =>
          have han : attachNode m c hd ≠ none := fun hx =>
            absurd ((attachNode_none_iff m c hd).mp hx) (by simp [hf])
          cases ha : attachNode m c hd with
          | some h' => simp
          | none => exact absurd ha han
      | none =>
          have ha : attachNode m c hd = none := (attachNode_none_iff m c hd).mpr hf
          rw [ha]
          cases hat : attachForest m c tl with
          | some t' =>
              have hfn : findNodeForest m tl ≠ none := fun hx =>
                absurd ((attachForest_none_iff m c tl).mpr hx) (by simp [hat])
              cases hft : findNodeForest m tl with
              | some r => simp
              | none => exact absurd hft hfn
          | none =>
              have hft : findNodeForest m tl = none :=
                (attachForest_none_iff m c tl).mp hat
              simp [hft]
end

/-! Lemmas about `BGMState.step` (claims C1, C2, C6, C10). -/

theorem attachCandidates_active :
    ∀ (cands : List BranchingCandidate) (t : GTNode) (nid : Nat) (acc : List Nat)
      (res : GTNode × Nat × List Nat),
      attachCandidates cands t nid acc = some res →
      res.2.2 = acc ++ cands.map (fun c => c.response.branch_master)
  | [], t, nid, acc, res => by
      intro h
      simp only [attachCandidates, Option.some.injEq] at h
      simp [← h]
  | c :: rest, t, nid, acc, res => by
      intro h
      rw [attachCandidates] at h
      cases hb : add_branch_to c nid t with
      | none => rw [hb] at h; exact absurd h (by simp)
      | some t' =>
          rw [hb] at h
          have := attachCandidates_active rest t' (nid + 1)
            (acc ++ [c.response.branch_master]) res h
          simpa using this

/-- C1: a successful `BranchingGameMaster.step` replaces the active-leaf set
by exactly the branch masters of all processed candidates, in processing
order (the flattening of the input groups), regardless of which candidates
reported done: no finished branch is pruned and the single clone of a
non-forking parent replaces its parent just the same. -/
theorem step_replaces_active (env : StepEnv) (s : BGMState)
    (groups : List (List BranchingStep))
    (out : BGMState × Bool × List (List (List (String × Bool))))
    (h : BGMState.step env s groups = some out) :
    out.1.active_parent_masters = groups.flatten.map (fun bs => bs.branch_master) := by
  simp only [BGMState.step] at h
  cases hat : attachCandidates ((groups.map (fun g => g.map (mkCandidate env))).flatten)
      s.tree s.nextNid [] with
  | none => rw [hat] at h; exact absurd h (by simp)
  | some r =>
      rw [hat] at h
      have hact := attachCandidates_active _ _ _ _ _ hat
      simp only [Option.some.injEq] at h
      have h1 : out.1.active_parent_masters = r.2.2 := by rw [← h]
      rw [h1, hact]
      simp [flatten_map_map (mkCandidate env) (fun c => c.response.branch_master) groups,
        mkCandidate]

/-- C2: the overall-done flag returned by a successful
`BranchingGameMaster.step` is the conjunction of the done results of every
processed candidate's `apply()`, and `is_done` subsequently reports that
same flag. -/
theorem step_overall_done (env : StepEnv) (s : BGMState)
    (groups : List (List BranchingStep))
    (out : BGMState × Bool × List (List (List (String × Bool))))
    (h : BGMState.step env s groups = some out) :
    out.2.1 = groups.flatten.all (fun bs => (bs.apply env).1)
    ∧ out.1.is_done = out.2.1 := by
  simp only [BGMState.step] at h
  cases hat : attachCandidates ((groups.map (fun g => g.map (mkCandidate env))).flatten)
      s.tree s.nextNid [] with
  | none => rw [hat] at h; exact absurd h (by simp)
  | some r =>
      rw [hat] at h
      simp only [Option.some.injEq] at h
      constructor
      · have h2 : out.2.1
            = ((groups.map (fun g => g.map (mkCandidate env))).flatten).all (·.done) := by
          rw [← h]
        rw [h2, flatten_map_all (mkCandidate env) (·.done) groups]
        rfl
      · rw [← h]
        rfl

/-- C10: stepping with an empty list of candidate groups succeeds, replaces
the active-leaf set with the empty list, leaves the tree untouched, and
vacuously reports overall-done = true (the conjunction over zero
candidates); `is_done` then reports true as well. -/
theorem step_empty_groups (env : StepEnv) (s : BGMState) :
    BGMState.step env s []
        = some ({ s with active_parent_masters := [], done := true }, true, [])
    ∧ BGMState.is_done { s with active_parent_masters := [], done := true } = true :=
  ⟨rfl, rfl⟩

/-- C6: a candidate whose parent master is wrapped by no node of the tree
makes the attachment fail exactly when `find_node` misses — and `step`
propagates the failure (the raised `AssertionError`, modelled as `none`)
rather than silently ignoring the candidate, while `find_node` itself
merely returns the not-found sentinel `none`. -/
theorem step_missing_parent_raises (env : StepEnv) (s : BGMState)
    (bs : BranchingStep) (h : find_node bs.parent_master s.tree = none) :
    BGMState.step env s [[bs]] = none
    ∧ (∀ (c : GTNode), attachNode bs.parent_master c s.tree = none) := by
  have hattach : ∀ c : GTNode, attachNode bs.parent_master c s.tree = none :=
    fun c => (attachNode_none_iff bs.parent_master c s.tree).mpr h
  refine ⟨?_, hattach⟩
  simp only [BGMState.step, List.map, List.flatten]
  have hb : add_branch_to (mkCandidate env bs) s.nextNid s.tree = none := by
    unfold add_branch_to
    exact hattach _
  simp [attachCandidates, hb]

/-! Lemmas about the tagging phase of `get_active_tree` (claim C4). -/

mutual
theorem leafMasters_tag (ms : List Nat) :
    ∀ t : GTNode, (find_leaves (tagActivePhase ms t)).map GTNode.master
      = (find_leaves t).map GTNode.master
  | .mk n m tg pl brs => by
      cases brs with
      | nil =>
          simp [tagActivePhase, tagForest, find_leaves, GTNode.master]
      | cons b bs =>
          have h1 := leafMasters_tag ms b
          have h2 := leafMastersForest_tag ms bs
          simp [tagActivePhase, tagForest, find_leaves, findLeavesForest, h1, h2]

theorem leafMastersForest_tag (ms : List Nat) :
    ∀ f : GTForest, (findLeavesForest (tagForest ms f)).map GTNode.master
      = (findLeavesForest f).map GTNode.master
  | .nil => rfl
  | .cons b bs => by
      simp [tagForest, findLeavesForest, leafMasters_tag ms b,
        leafMastersForest_tag ms bs]
end

theorem onActivePath_of_leafMasters {ms' : List Nat} {t u : GTNode}
    (h : (find_leaves t).map GTNode.master = (find_leaves u).map GTNode.master) :
    onActivePath ms' t = onActivePath ms' u := by
  unfold onActivePath
  rw [← any_comp_map GTNode.master (fun m => ms'.contains m) (find_leaves t),
    ← any_comp_map GTNode.master (fun m => ms'.contains m) (find_leaves u), h]

theorem onActivePath_tag (ms ms' : List Nat) (t : GTNode) :
    onActivePath ms' (tagActivePhase ms t) = onActivePath ms' t :=
  onActivePath_of_leafMasters (leafMasters_tag ms t)

mutual
theorem activePathNids_tag (ms ms' : List Nat) :
    ∀ t : GTNode, activePathNids ms' (tagActivePhase ms t) = activePathNids ms' t
  | .mk n m tg pl brs => by
      have hcond := onActivePath_tag ms ms' (.mk n m tg pl brs)
      rw [tagActivePhase] at hcond ⊢
      rw [activePathNids, activePathNids, hcond,
        activePathForest_tag ms ms' brs]

theorem activePathForest_tag (ms ms' : List Nat) :
    ∀ f : GTForest, activePathForest ms' (tagForest ms f) = activePathForest ms' f
  | .nil => rfl
  | .cons b bs => by
      rw [tagForest, activePathForest, activePathForest,
        activePathNids_tag ms ms' b, activePathForest_tag ms ms' bs]
end

mutual
theorem taggedNids_tag (ms : List Nat) :
    ∀ (t : GTNode) (x : Nat),
      x ∈ taggedNids (tagActivePhase ms t)
        ↔ x ∈ taggedNids t ∨ x ∈ activePathNids ms t
  | .mk n m tg pl brs, x => by
      rw [tagActivePhase, taggedNids, taggedNids, activePathNids]
      have hforest := taggedForest_tag ms brs x
      by_cases hc : onActivePath ms (.mk n m tg pl brs)
      · rw [if_pos hc, if_pos hc]
        by_cases ht : tg.contains "active"
        · simp only [ht, contains_addTag, if_pos, List.mem_append,
            List.mem_singleton, hforest]
          tauto
        · have hadd : (addTag "active" tg).contains "active" = true :=
            contains_addTag "active" tg
          simp only [ht, hadd, if_pos, if_neg, Bool.false_eq_true,
            List.mem_append, List.mem_singleton, List.not_mem_nil, hforest]
          tauto
      · rw [if_neg hc, if_neg hc]
        simp only [List.mem_append, List.not_mem_nil, hforest]
        tauto

theorem taggedForest_tag (ms : List Nat) :
    ∀ (f : GTForest) (x : Nat),
      x ∈ taggedForest (tagForest ms f)
        ↔ x ∈ taggedForest f ∨ x ∈ activePathForest ms f
  | .nil, x => by simp [tagForest, taggedForest, activePathForest]
  | .cons b bs, x => by
      rw [tagForest, taggedForest, taggedForest, activePathForest]
      have h1 := taggedNids_tag ms b x
      have h2 := taggedForest_tag ms bs x
      simp only [List.mem_append, h1, h2]
      tauto
end

theorem taggedNids_fold :
    ∀ (mss : List (List Nat)) (t : GTNode) (x : Nat),
      x ∈ taggedNids (mss.foldl (fun acc ms => tagActivePhase ms acc) t)
        ↔ x ∈ taggedNids t ∨ ∃ ms ∈ mss, x ∈ activePathNids ms t
  | [], t, x => by simp
  | ms :: rest, t, x => by
      rw [List.foldl_cons]
      rw [taggedNids_fold rest (tagActivePhase ms t) x]
      rw [taggedNids_tag ms t x]
      constructor
      · rintro (h | ⟨ms', hms', h⟩)
        · rcases h with h | h
          · exact Or.inl h
          · exact Or.inr ⟨ms, List.mem_cons_self ms rest, h⟩
        · rw [activePathNids_tag ms ms' t] at h
          exact Or.inr ⟨ms', List.mem_cons_of_mem ms hms', h⟩
      · rintro (h | ⟨ms', hms', h⟩)
        · exact Or.inl (Or.inl h)
        · rcases List.mem_cons.mp hms' with rfl | hms'
          · exact Or.inl (Or.inr h)
          · exact Or.inr ⟨ms', hms', by rw [activePathNids_tag ms ms' t]; exact h⟩

theorem runExtractions_tree :
    ∀ (mss : List (List Nat)) (s : BGMState),
      (runExtractions s mss).tree
        = mss.foldl (fun acc ms => tagActivePhase ms acc) s.tree
  | [], s => rfl
  | ms :: rest, s => by
      show (runExtractions _ rest).tree = _
      rw [runExtractions_tree rest _]
      rfl

theorem runExtractions_append (s : BGMState) (mss more : List (List Nat)) :
    runExtractions s (mss ++ more) = runExtractions (runExtractions s mss) more :=
  List.foldl_append _ _ mss more

/-- C4: across any sequence of extraction calls, started on a tree carrying
no `"active"` tags, the tagged node set after the calls is exactly the union
over the calls of the ancestors-or-selves of the leaves active at each call;
and across further calls the tagged set only ever grows, never shrinks. -/
theorem extraction_tags_are_historical_union (s : BGMState)
    (mss more : List (List Nat)) (h : taggedNids s.tree = []) :
    (∀ x, x ∈ taggedNids (runExtractions s mss).tree
        ↔ ∃ ms ∈ mss, x ∈ activePathNids ms s.tree)
    ∧ (∀ x, x ∈ taggedNids (runExtractions s mss).tree
        → x ∈ taggedNids (runExtractions s (mss ++ more)).tree) := by
  constructor
  · intro x
    rw [runExtractions_tree, taggedNids_fold]
    simp [h]
  · intro x hx
    rw [runExtractions_tree, taggedNids_fold] at hx ⊢
    rcases hx with hx | ⟨ms, hms, hx⟩
    · exact Or.inl hx
    · exact Or.inr ⟨ms, List.mem_append_left more hms, hx⟩

/-! Lemmas about `branching_response` (claim C5). -/

theorem branchLoop_shape (env : BranchEnv) (pm pp pc : Nat) :
    ∀ (k fresh : Nat),
      (branchLoop env pm pp pc k fresh).1.map (fun bs => bs.branch_master)
          = List.range' fresh k
      ∧ (branchLoop env pm pp pc k fresh).2 = fresh + k
      ∧ (branchLoop env pm pp pc k fresh).1.length = k
      ∧ ∀ bs ∈ (branchLoop env pm pp pc k fresh).1, bs.parent_master = pm
  | 0, fresh => by simp [branchLoop]
  | k + 1, fresh => by
      have ih := branchLoop_shape env pm pp pc k (fresh + 1)
      simp only [branchLoop, List.map_cons, List.length_cons, List.mem_cons]
      refine ⟨?_, ?_, ?_, ?_⟩
      · rw [List.range'_succ, ih.1]
      · rw [ih.2.1]; omega
      · rw [ih.2.2.1]
      · rintro bs (rfl | hbs)
        · rfl
        · exact ih.2.2.2 bs hbs

theorem branching_response_ids (env : BranchEnv) (F : Nat) (crit : Nat → Bool) :
    ∀ (ps : List Nat) (fresh : Nat), ∃ cnt,
      (branching_response env F crit ps fresh).2 = fresh + cnt
      ∧ (branching_response env F crit ps fresh).1.flatten.map
          (fun bs => bs.branch_master) = List.range' fresh cnt
  | [], fresh => ⟨0, by simp [branching_response], by simp [branching_response]⟩
  | pm :: rest, fresh => by
      have hbl := branchLoop_shape env pm (env.observe pm).1 (env.observe pm).2
        (if crit pm then F else 1) fresh
      obtain ⟨cnt, hsnd, hids⟩ := branching_response_ids env F crit rest
        (fresh + (if crit pm then F else 1))
      refine ⟨(if crit pm then F else 1) + cnt, ?_, ?_⟩
      · simp only [branching_response]
        rw [hbl.2.1, hsnd]
        omega
      · simp only [branching_response, List.flatten_cons, List.map_append]
        rw [hbl.2.1, hbl.1, hids]
        have happ := List.range'_append fresh (if crit pm then F else 1) cnt 1
        simp only [one_mul] at happ
        rw [happ, Nat.add_comm cnt _]

theorem branching_response_groups (env : BranchEnv) (F : Nat) (crit : Nat → Bool) :
    ∀ (ps : List Nat) (fresh : Nat),
      List.Forall₂ (fun pm group =>
          group.length = (if crit pm then F else 1)
          ∧ ∀ bs ∈ group, bs.parent_master = pm)
        ps (branching_response env F crit ps fresh).1
  | [], _ => List.Forall₂.nil
  | pm :: rest, fresh => by
      simp only [branching_response]
      refine List.Forall₂.cons ?_ (branching_response_groups env F crit rest _)
      have hbl := branchLoop_shape env pm (env.observe pm).1 (env.observe pm).2
        (if crit pm then F else 1) fresh
      exact ⟨hbl.2.2.1, hbl.2.2.2⟩

/-- C5: for every active-parent list, branching factor F > 0 and branching
criteria, `branching_response` returns one candidate group per parent,
positionally aligned (each group's candidates carry that parent as their
parent master); a group has length F when the criteria holds for its parent
and length 1 otherwise; and the branch masters are fresh pairwise distinct
clones, distinct from every input parent. -/
theorem branching_response_spec (env : BranchEnv) (F : Nat) (crit : Nat → Bool)
    (parents : List Nat) (fresh : Nat) (hF : 0 < F)
    (hfresh : ∀ p ∈ parents, p < fresh) :
    List.Forall₂ (fun pm group =>
        group.length = (if crit pm then F else 1)
        ∧ ∀ bs ∈ group, bs.parent_master = pm)
      parents (branching_response env F crit parents fresh).1
    ∧ ((branching_response env F crit parents fresh).1.flatten.map
        (fun bs => bs.branch_master)).Nodup
    ∧ ∀ bs ∈ (branching_response env F crit parents fresh).1.flatten,
        bs.branch_master ∉ parents := by
  obtain ⟨cnt, hsnd, hids⟩ := branching_response_ids env F crit parents fresh
  refine ⟨branching_response_groups env F crit parents fresh, ?_, ?_⟩
  · rw [hids]
    exact List.nodup_range' fresh cnt
  · intro bs hbs hmem
    have hin : bs.branch_master ∈ List.range' fresh cnt := by
      rw [← hids]
      exact List.mem_map_of_mem _ hbs
    have h1 := List.mem_range'_1.mp hin
    have h2 := hfresh _ hmem
    omega

/-! Concrete inputs used by the remaining claims and the witnesses. -/

/-- Leaf node wrapping master 1. -/
def demoLeafA : GTNode := .mk 1 1 [] none .nil

/-- Leaf node wrapping master 2. -/
def demoLeafB : GTNode := .mk 2 2 [] none .nil

/-- Root wrapping master 0 with the two leaves as children. -/
def demoRoot : GTNode := .mk 0 0 [] none (.cons demoLeafA (.cons demoLeafB .nil))

/-- Orchestrator state over `demoRoot` whose active parent set is the
single master 1 (the first leaf). -/
def demoState : BGMState := ⟨demoRoot, [1], false, 3⟩

/-- Step environment whose branch steps report done exactly for master 1
and produce empty info dicts. -/
def demoStepEnv : StepEnv := ⟨fun m _ => (m == 1, [])⟩

/-- Two candidate groups under the root master 0, branching to the fresh
masters 1 and 2. -/
def demoGroups : List (List BranchingStep) :=
  [[⟨0, 7, 8, 1, "a"⟩], [⟨0, 7, 8, 2, "b"⟩]]

/-- Tree resulting from attaching the two `demoGroups` candidates under the
root of `demoRoot`. -/
def demoTreeAfter : GTNode :=
  .mk 0 0 [] none
    (.cons demoLeafA (.cons demoLeafB
      (.cons (.mk 3 1 [] (some ⟨7, 8, "a", true, [("done", true)]⟩) .nil)
        (.cons (.mk 4 2 [] (some ⟨7, 8, "b", false, [("done", false)]⟩) .nil)
          .nil))))

/-- Expected result of stepping `demoState` with `demoGroups`. -/
def demoStepOut : BGMState × Bool × List (List (List (String × Bool))) :=
  (⟨demoTreeAfter, [1, 2], false, 5⟩, false,
    [[[("done", true)]], [[("done", false)]]])

/-- Candidate whose parent master 42 is wrapped by no node of `demoRoot`. -/
def demoMissingStep : BranchingStep := ⟨42, 7, 8, 9, "x"⟩

/-- Player environment for the branching-response witness. -/
def demoBranchEnv : BranchEnv := ⟨fun m => (m + 100, m + 200), fun p _ => toString p⟩

/-- C3: evaluation of `get_active_tree` at the two-leaf tree `demoRoot`
whose first leaf alone is active: the returned tree's root still carries
both children, and the inactive second child carries no `"active"` tag, so
the returned tree does not keep only active-tagged children.  In the source
the helper `copy_active_tree_recursive` assigns the filtered child lists
only to local shallow copies that are immediately discarded, and the
returned root is a shallow copy sharing the original root's unfiltered
children list, so no filtering (and no structural independence) is ever
achieved. -/
theorem get_active_tree_keeps_inactive_children :
    ((get_active_tree demoState).2.branches.toList.map GTNode.master = [1, 2])
    ∧ ((get_active_tree demoState).2.branches.toList.map (fun u => u.hasTag "active")
        = [true, false]) :=
  ⟨rfl, rfl⟩

/-! Witness theorems instantiating the hypotheses of the claim theorems at
concrete inputs. -/

theorem step_replaces_active_witness :
    BGMState.step demoStepEnv demoState demoGroups = some demoStepOut
    ∧ demoStepOut.1.active_parent_masters = [1, 2] :=
  ⟨rfl, by
    have h := step_replaces_active demoStepEnv demoState demoGroups demoStepOut rfl
    simpa [demoGroups] using h⟩

theorem step_overall_done_witness :
    BGMState.step demoStepEnv demoState demoGroups = some demoStepOut
    ∧ demoStepOut.2.1 = demoGroups.flatten.all (fun bs => (bs.apply demoStepEnv).1)
    ∧ demoStepOut.1.is_done = demoStepOut.2.1 :=
  ⟨rfl, (step_overall_done demoStepEnv demoState demoGroups demoStepOut rfl).1,
    (step_overall_done demoStepEnv demoState demoGroups demoStepOut rfl).2⟩

theorem step_missing_parent_raises_witness :
    find_node 42 demoState.tree = none
    ∧ BGMState.step demoStepEnv demoState [[demoMissingStep]] = none :=
  ⟨rfl, (step_missing_parent_raises demoStepEnv demoState demoMissingStep rfl).1⟩

theorem extraction_tags_witness :
    taggedNids demoState.tree = []
    ∧ (1 ∈ taggedNids (runExtractions demoState [[1]]).tree
        ↔ ∃ ms ∈ [[1]], 1 ∈ activePathNids ms demoState.tree) :=
  ⟨rfl, (extraction_tags_are_historical_union demoState [[1]] [[2]] rfl).1 1⟩

theorem branching_response_spec_witness :
    0 < 2 ∧ (∀ p ∈ [0, 1], p < 10)
    ∧ (List.Forall₂ (fun pm group =>
          group.length = (if (fun m => m % 2 == 0) pm then 2 else 1)
          ∧ ∀ bs ∈ group, bs.parent_master = pm)
        [0, 1] (branching_response demoBranchEnv 2 (fun m => m % 2 == 0) [0, 1] 10).1
      ∧ ((branching_response demoBranchEnv 2 (fun m => m % 2 == 0) [0, 1] 10).1.flatten.map
          (fun bs => bs.branch_master)).Nodup
      ∧ ∀ bs ∈ (branching_response demoBranchEnv 2 (fun m => m % 2 == 0) [0, 1] 10).1.flatten,
          bs.branch_master ∉ [0, 1]) :=
  ⟨by decide, by decide,
    branching_response_spec demoBranchEnv 2 (fun m => m % 2 == 0) [0, 1] 10
      (by decide) (by decide)⟩

end Playpen

namespace Batchwise

/-- C7: one session permitting exactly 3 observations, scheduled by a
dynamic batch scheduler of batch size 5: exactly three batches are emitted,
each holding a single observation of session 0, with observation turn
counters 1, 2, 3 in that order, and the scheduler then terminates (it
reaches the empty-pass stop condition, flag `true`, well within the
fuel). -/
theorem loader_single_session_three_batches :
    loaderRun 5 10 [(⟨0, 0, 3, false⟩, false)]
      = ([([0], [0], [1]), ([0], [0], [2]), ([0], [0], [3])], true) :=
  rfl

/-- C8: a single poller pass over sessions 0, 1, 2 where session 1 is
already exhausted — either its handle is already done, or its exhaustion
flag is already set — yields exactly the two observations of sessions 0
and 2, in input order. -/
theorem poller_pass_skips_exhausted :
    ((pollPass [(⟨0, 0, 5, false⟩, false), (⟨1, 1, 0, true⟩, false),
        (⟨2, 0, 5, false⟩, false)]).1 = [⟨0, 0, 1⟩, ⟨2, 2, 1⟩])
    ∧ ((pollPass [(⟨0, 0, 5, false⟩, false), (⟨1, 1, 0, true⟩, true),
        (⟨2, 0, 5, false⟩, false)]).1 = [⟨0, 0, 1⟩, ⟨2, 2, 1⟩]) :=
  ⟨rfl, rfl⟩

end Batchwise
